import Mathlib

/-!
Verification development for the `eventually` library: a single-assignment
asynchronous result container (`Promise`, the "future") built on a
state-carrying event emitter, and an iterative map/reduce coordinator
(`IterativePromise`) built on top of it.

The definitions below are shallow embeddings of the JavaScript sources:
`Ev` embeds the private `Event` class of the event emitter module
(listener list, disabled flag, fired arguments); `Promise` embeds the
promise module (three states `progress`/`resolved`/`rejected`, a
`resolved` and a `rejected` event, and the replacement of the firing
functions by no-ops inside `_complete`, modelled by the `fireDisabled`
flag); `Iter` embeds the `IterativePromise` module field by field.

Handlers are opaque identifiers (`Nat`); an operation returns, besides
the new state, the list of handler invocations it performed (`Fired`
records the handler, the receiver and the argument list), which models
the synchronous calls `listener.handler.apply(listener.context, args)`
performed by `Event#fire` / `Event#execute`.  The `progress` event and
the `once`/`unshift` listener options are outside every claim and are
not modelled (the promise module registers its listeners without
options, so those flags are constantly false in the embedded usage).
-/

namespace Eventually

/-- JavaScript values appearing in settlement argument lists.  `err`
models an `Error` instance (`instanceof Error`). -/
inductive JSVal where
  | undef
  | null
  | bool (b : Bool)
  | num (n : Int)
  | str (s : String)
  | err (msg : String)
  deriving DecidableEq, Repr

/-- JavaScript truthiness of a `JSVal` (used by `if (initialValue)` and
`if (this.to_map)`). -/
def truthy : JSVal → Bool
  | .undef => false
  | .null => false
  | .bool b => b
  | .num n => n != 0
  | .str s => s != ""
  | .err _ => true

/-- `returned instanceof Error`. -/
def isError : JSVal → Bool
  | .err _ => true
  | _ => false

/-- The three states of a promise (`StateEventEmitter` state strings). -/
inductive PState where
  | progress
  | resolved
  | rejected
  deriving DecidableEq, Repr

/-- The receiver (`this`) a listener was registered with: an opaque user
object, the promise itself (the `context || this` default), or the
JavaScript `undefined`. -/
inductive Ctx where
  | promiseSelf
  | user (n : Nat)
  | undefCtx
  deriving DecidableEq, Repr

/-- A listener entry of the `Event` class: `{handler, context}` (the
`once`/`unshift`/`errorCb` options are never set by the promise code). -/
structure Listener where
  handler : Nat
  context : Ctx
  deriving DecidableEq, Repr

/-- One observed handler invocation:
`listener.handler.apply(receiver, args)`. -/
structure Fired where
  handler : Nat
  context : Ctx
  args : List JSVal
  deriving DecidableEq, Repr

/-- The private `Event` class of the event emitter: listener list, the
`disabled` flag consulted by `fire`, and the `fired`/`firedArgs` record
(`firedArgs` starts as `null`, modelled `none`). -/
structure Ev where
  listeners : List Listener
  disabled : Bool
  fired : Bool
  firedArgs : Option (List JSVal)
  deriving DecidableEq, Repr

/-- A freshly created `Event`. -/
def Ev.new : Ev :=
  { listeners := [], disabled := false, fired := false, firedArgs := none }

/-- `Event#fire(args)`: a no-op when disabled; otherwise records
`fired`/`firedArgs` and executes every listener in registration order
with the fired arguments. -/
def Ev.fire (e : Ev) (args : List JSVal) : Ev × List Fired :=
  if e.disabled then (e, [])
  else ({ e with fired := true, firedArgs := some args },
        e.listeners.map (fun l => ⟨l.handler, l.context, args⟩))

/-- `Event#execute(listener)`: one call of the handler with the
event's `firedArgs` as arguments (`apply` of a `null` argument list
calls the handler with no arguments, hence `getD []`). -/
def Ev.execute (e : Ev) (handler : Nat) (context : Ctx) : Fired :=
  ⟨handler, context, e.firedArgs.getD []⟩

/-- The promise: state, the `resolved` and `rejected` events, and the
`fireDisabled` flag modelling `_complete`'s replacement of
`this.resolve`/`this.reject` by functions that do nothing. -/
structure Promise where
  state : PState
  resolvedEv : Ev
  rejectedEv : Ev
  fireDisabled : Bool
  deriving DecidableEq, Repr

/-- `new Promise()`: state `progress`, fresh events. -/
def Promise.fresh : Promise :=
  { state := .progress, resolvedEv := Ev.new, rejectedEv := Ev.new,
    fireDisabled := false }

/-- `Promise#isCompleted()`. -/
def Promise.isCompleted (p : Promise) : Bool :=
  p.state == .resolved || p.state == .rejected

/-- `Promise#isResolved()`. -/
def Promise.isResolved (p : Promise) : Bool :=
  p.state == .resolved

/-- `Promise#isRejected()`. -/
def Promise.isRejected (p : Promise) : Bool :=
  p.state == .rejected

/-- `Promise#inProgress()`. -/
def Promise.inProgress (p : Promise) : Bool :=
  p.state == .progress

/-- `Promise#resolvedArguments()` (`_events.resolved.firedArgs`). -/
def Promise.resolvedArguments (p : Promise) : Option (List JSVal) :=
  p.resolvedEv.firedArgs

/-- `Promise#rejectedArguments()` (`_events.rejected.firedArgs`). -/
def Promise.rejectedArguments (p : Promise) : Option (List JSVal) :=
  p.rejectedEv.firedArgs

/-- `Promise#_complete(state, args)`: replaces the firing functions by
no-ops (`fireDisabled := true`), runs `setState` (which changes the
state and fires the state-named event only when the state actually
changes; the `state_change` event has no listeners in the embedded
usage), and finally disables the `resolved` and `rejected` events. -/
def Promise.complete (p : Promise) (st : PState) (args : List JSVal) :
    Promise × List Fired :=
  let p1 : Promise := { p with fireDisabled := true }
  let pr : Promise × List Fired :=
    if p1.state ≠ st then
      let p2 : Promise := { p1 with state := st }
      match st with
      | .resolved =>
          let fr := p2.resolvedEv.fire args
          ({ p2 with resolvedEv := fr.1 }, fr.2)
      | .rejected =>
          let fr := p2.rejectedEv.fire args
          ({ p2 with rejectedEv := fr.1 }, fr.2)
      | .progress => (p2, [])
    else (p1, [])
  ({ pr.1 with resolvedEv := { pr.1.resolvedEv with disabled := true },
               rejectedEv := { pr.1.rejectedEv with disabled := true } },
   pr.2)

/-- `Promise#resolve(...args)`: a no-op once the firing functions were
replaced; otherwise `_complete('resolved', args)`. -/
def Promise.resolve (p : Promise) (args : List JSVal) : Promise × List Fired :=
  if p.fireDisabled then (p, []) else p.complete .resolved args

/-- `Promise#reject(...args)`. -/
def Promise.reject (p : Promise) (args : List JSVal) : Promise × List Fired :=
  if p.fireDisabled then (p, []) else p.complete .rejected args

/-- `Promise#cancel()`: disables the `rejected` and `resolved` events;
nothing else changes (in particular not the state and not the firing
functions). -/
def Promise.cancel (p : Promise) : Promise :=
  { p with resolvedEv := { p.resolvedEv with disabled := true },
           rejectedEv := { p.rejectedEv with disabled := true } }

/-- `Promise#addCallback(callback, context)`: while not completed,
append a listener to the `resolved` event (receiver defaulted by
`context || this`); if already resolved, execute the handler at once
with the captured arguments and the raw `context`; if rejected, do
nothing. -/
def Promise.addCallback (p : Promise) (handler : Nat) (context : Ctx) :
    Promise × List Fired :=
  if ¬ p.isCompleted then
    ({ p with resolvedEv := { p.resolvedEv with
        listeners := p.resolvedEv.listeners ++
          [⟨handler, if context == .undefCtx then .promiseSelf else context⟩] } },
     [])
  else if p.isResolved then (p, [p.resolvedEv.execute handler context])
  else (p, [])

/-- `Promise#addErrback(errback, context)`: mirror image of
`addCallback` on the `rejected` event. -/
def Promise.addErrback (p : Promise) (handler : Nat) (context : Ctx) :
    Promise × List Fired :=
  if ¬ p.isCompleted then
    ({ p with rejectedEv := { p.rejectedEv with
        listeners := p.rejectedEv.listeners ++
          [⟨handler, if context == .undefCtx then .promiseSelf else context⟩] } },
     [])
  else if p.isRejected then (p, [p.rejectedEv.execute handler context])
  else (p, [])

/-- A settlement request: one call of `resolve(...args)` or
`reject(...args)`. -/
inductive SettleCall where
  | res (args : List JSVal)
  | rej (args : List JSVal)

/-- Argument list of a settlement call. -/
def SettleCall.args : SettleCall → List JSVal
  | .res a => a
  | .rej a => a

/-- Target state of a settlement call. -/
def SettleCall.target : SettleCall → PState
  | .res _ => .resolved
  | .rej _ => .rejected

/-- The event of the promise matching the kind of a settlement call. -/
def SettleCall.matchingEv (c : SettleCall) (p : Promise) : Ev :=
  match c with
  | .res _ => p.resolvedEv
  | .rej _ => p.rejectedEv

/-- Perform a settlement call on a promise. -/
def Promise.applyCall (p : Promise) : SettleCall → Promise × List Fired
  | .res a => p.resolve a
  | .rej a => p.reject a

/-- A live pending promise: in `progress`, firing functions intact,
events not disabled — the condition of every promise between creation
and the first of `_complete`/`cancel`. -/
def Promise.PendingLive (p : Promise) : Prop :=
  p.state = .progress ∧ p.fireDisabled = false ∧
  p.resolvedEv.disabled = false ∧ p.rejectedEv.disabled = false

/-- What a `pipe` handler may return: a plain value, or a promise
(carrying its eventual settlement: `none` when it never settles,
`some (resolvedFlag, args)` otherwise). -/
inductive PipeRet where
  | val (v : JSVal)
  | promise (outcome : Option (Bool × List JSVal))

/-- The body of the closure `Promise#pipe` installs for the `resolve`
(`isResolveBranch = true`) or `reject` branch, expressed as a function
from the original promise's settlement arguments to the settlement of
the new promise (`none` = the new promise never settles).  With a
handler: an `undefined` return settles the new promise in the same
branch with no arguments (`promise[action]()`); a returned promise is
adopted (`returned.then(promise.resolve, promise.reject, ...)`); an
`Error` return rejects; any other value resolves.  Without a handler,
the settlement passes through unchanged
(`promise[action].apply(promise, arguments)`). -/
def pipeHandlerBody (isResolveBranch : Bool)
    (handler : Option (List JSVal → PipeRet)) (args : List JSVal) :
    Option (Bool × List JSVal) :=
  match handler with
  | some f =>
    match f args with
    | .val .undef => some (isResolveBranch, [])
    | .promise outcome => outcome
    | .val r => if isError r then some (false, [r]) else some (true, [r])
  | none => some (isResolveBranch, args)

/-!
The `IterativePromise` coordinator.  `Iter` carries the module's fields
(`to_map`, `_started`, `_onFly`, `_mapped`, `_resolved`, `_rejected`,
`_reduceBuffer`, `_endShouldBeLaunched`, `reduceFn`, `endFn`,
`_currentReduceResult` as `acc`) together with the promise part `fut`
(the prototype copy of `Promise` onto `IterativePromise`), the tracked
child futures returned by the mapping function (`children`: one entry
per dispatched key that was handed a promise, with a settled flag), and
ghost observation logs (`mapLog`: the keys the mapping function was
invoked on, as a test spy would record; `reduceLog`, `endLog`
likewise for the reduce and end functions).

Caller-supplied functions are embedded as data.  The mapping function
is `mapRet : K → Bool`, telling for each key whether the call returns a
fresh pending promise (`true`) or `undefined` (`false`); the
`Promise.when` coercion of plain return values and pre-settled promises
is outside every claim and not modelled.  A reduce function returns a
`ReduceEffect`: the sequence of feed-forward calls its body makes, an
optional manual `this.resolve`/`this.reject`, and its return value (the
new accumulator); an end function returns an `EndEffect` likewise.
Child settlements arrive as explicit world events (`Act.settleRes`,
`Act.settleRej`); the fire-once behaviour of a child promise is
reflected by the settled flag of its `children` entry.
-/

/-- The observable effect of one reduce-function invocation: the keys
it feeds forward, an optional manual completion of the coordinator
(`true` = resolve), and the returned accumulator. -/
structure ReduceEffect (K : Type) where
  feeds : List K
  manual : Option (Bool × List JSVal)
  result : JSVal

/-- The observable effect of one end-function invocation. -/
structure EndEffect (K : Type) where
  feeds : List K
  manual : Option (Bool × List JSVal)

/-- A reduce function:
`(previous, ...result, map, key, resolved, rejected)` — the settlement
arguments are passed as a list, the feed-forward calls are returned as
data. -/
def ReduceFn (K : Type) : Type :=
  JSVal → List JSVal → K → List K → List K → ReduceEffect K

/-- An end function: `(reduce_result, map, resolved, rejected)`. -/
def EndFn (K : Type) : Type :=
  JSVal → List K → List K → EndEffect K

/-- The `IterativePromise` state together with its child futures and
the ghost observation logs. -/
structure Iter (K : Type) where
  fut : Promise
  to_map : Option (List K)
  started : Bool
  onFly : Int
  mapped : List K
  resolvedK : List K
  rejectedK : List K
  reduceBuffer : List (K × List JSVal)
  endShouldBeLaunched : Bool
  reduceFn : Option (ReduceFn K)
  endFn : Option (EndFn K)
  mapRet : K → Bool
  children : List (K × Bool)
  acc : JSVal
  mapLog : List K
  reduceLog : List (JSVal × List JSVal × K)
  endLog : List (JSVal × List K × List K)

/-- `new IterativePromise(to_map)` with the behaviour of the (later
attached) mapping function fixed up front. -/
def mkIter {K : Type} (to_map : Option (List K)) (mapRet : K → Bool) :
    Iter K :=
  { fut := Promise.fresh, to_map := to_map, started := false, onFly := 0,
    mapped := [], resolvedK := [], rejectedK := [], reduceBuffer := [],
    endShouldBeLaunched := false, reduceFn := none, endFn := none,
    mapRet := mapRet, children := [], acc := .undef, mapLog := [],
    reduceLog := [], endLog := [] }

variable {K : Type} [DecidableEq K]

/-- `IterativePromise#_launchMap(key)`: refuse a key already in
`_mapped` under `equalTestFn` (returning `false`); otherwise record the
key, invoke the mapping function, and — when it returns a promise —
increment `_onFly` and track the child; returns `true`. -/
def Iter.launchMap (keq : K → K → Bool) (st : Iter K) (k : K) :
    Iter K × Bool :=
  if st.mapped.any (fun k2 => keq k k2) then (st, false)
  else
    let st1 := { st with mapped := st.mapped ++ [k],
                         mapLog := st.mapLog ++ [k] }
    if st1.mapRet k then
      ({ st1 with onFly := st1.onFly + 1,
                  children := st1.children ++ [(k, false)] }, true)
    else (st1, true)

/-- The feed-forward closure handed to the reduce function:
`function map(key) { return that._launchMap(key); }` — it returns the
boolean result of `_launchMap` (`some` models a defined return). -/
def reduceFeedMap (keq : K → K → Bool) (st : Iter K) (k : K) :
    Iter K × Option Bool :=
  let r := st.launchMap keq k
  (r.1, some r.2)

/-- The feed-forward closure handed to the end function:
`var map = function(key) { toMap.push(key); };` — it only records the
key and returns `undefined` (`none`). -/
def endFeedMap {K : Type} (toMap : List K) (k : K) : List K × Option Bool :=
  (toMap ++ [k], none)

/-- A manual `this.resolve(...args)` / `this.reject(...args)` on the
coordinator's own promise (handler invocations on the coordinator's own
listeners are not traced at world level). -/
def Iter.applyManual (w : Iter K) : Option (Bool × List JSVal) → Iter K
  | none => w
  | some (true, args) => { w with fut := (w.fut.resolve args).1 }
  | some (false, args) => { w with fut := (w.fut.reject args).1 }

/-- Dispatch each key of a list through `_launchMap` in order. -/
def Iter.feedAll (keq : K → K → Bool) (st : Iter K) (ks : List K) : Iter K :=
  ks.foldl (fun s k => (s.launchMap keq k).1) st

/-- `IterativePromise#_launchEnd()`: set `_endShouldBeLaunched`; with an
end function attached, invoke it (collecting the keys its feed-forward
closure pushed into `toMap` and applying its manual completions), then
either dispatch the collected keys or — when none were collected and
the coordinator is not completed — force completion by resolving with
the current accumulator. -/
def Iter.launchEnd (keq : K → K → Bool) (st : Iter K) : Iter K :=
  let st1 := { st with endShouldBeLaunched := true }
  match st1.endFn with
  | none => st1
  | some g =>
      let eff := g st1.acc st1.resolvedK st1.rejectedK
      let st2 := { st1 with
        endLog := st1.endLog ++ [(st1.acc, st1.resolvedK, st1.rejectedK)] }
      let st3 := st2.applyManual eff.manual
      let toMap := eff.feeds.foldl (fun a k => (endFeedMap a k).1) []
      if toMap.length != 0 then st3.feedAll keq toMap
      else if ¬ st3.fut.isCompleted then
        st3.applyManual (some (true, [st3.acc]))
      else st3

/-- `IterativePromise#_checkFinish()`: launch the end phase exactly when
no promise is on the fly, the reduce buffer is empty and the
coordinator's own promise is not completed. -/
def Iter.checkFinish (keq : K → K → Bool) (st : Iter K) : Iter K :=
  if st.onFly == 0 && st.reduceBuffer.isEmpty && !st.fut.isCompleted then
    st.launchEnd keq
  else st

/-- `IterativePromise#_launchReduce(key, result)`: buffer the pair when
no reduce function is attached yet; otherwise invoke the reduce
function (its feed-forward calls run `_launchMap` synchronously, its
manual completions act on the coordinator's promise), store its return
value as the new accumulator, and check for finish. -/
def Iter.launchReduce (keq : K → K → Bool) (st : Iter K) (k : K)
    (result : List JSVal) : Iter K :=
  match st.reduceFn with
  | none => { st with reduceBuffer := st.reduceBuffer ++ [(k, result)] }
  | some f =>
      let eff := f st.acc result k st.resolvedK st.rejectedK
      let st1 := { st with reduceLog := st.reduceLog ++ [(st.acc, result, k)] }
      let st2 := eff.feeds.foldl (fun s k2 => (reduceFeedMap keq s k2).1) st1
      let st3 := st2.applyManual eff.manual
      let st4 := { st3 with acc := eff.result }
      st4.checkFinish keq

/-- Look up the settled flag of the tracked child future for a key. -/
def lookupChild (children : List (K × Bool)) (k : K) : Option Bool :=
  (children.find? (fun c => decide (c.1 = k))).map (fun c => c.2)

/-- Mark the first tracked child with the given key as settled. -/
def markDone : List (K × Bool) → K → List (K × Bool)
  | [], _ => []
  | c :: rest, k => if c.1 = k then (c.1, true) :: rest else c :: markDone rest k

/-- Settlement of a dispatched child future: the fire-once `then`
handlers registered by `_launchMap`.  On the first settlement of a
pending child, `callback`/`errback` run: decrement `_onFly`; then, only
when the coordinator is not completed, append the key to
`_resolved`/`_rejected` and run `_launchReduce` (resolve) or
`_checkFinish` (reject).  A repeated settlement is absorbed by the
child promise and does nothing. -/
def Iter.settle (keq : K → K → Bool) (w : Iter K) (k : K)
    (resolvedFlag : Bool) (args : List JSVal) : Iter K :=
  match lookupChild w.children k with
  | some false =>
      let w1 := { w with children := markDone w.children k }
      let w2 := { w1 with onFly := w1.onFly - 1 }
      if ¬ w2.fut.isCompleted then
        if resolvedFlag then
          Iter.launchReduce keq { w2 with resolvedK := w2.resolvedK ++ [k] } k args
        else
          Iter.checkFinish keq { w2 with rejectedK := w2.rejectedK ++ [k] }
      else w2
  | _ => w

/-- The drain loop of `IterativePromise#reduce`: while the buffer is
non-empty, shift the first pair and run `_launchReduce` on it.  With a
reduce function attached, `_launchReduce` never pushes to the buffer,
so the initial buffer length bounds the iteration count. -/
def Iter.drainLoop (keq : K → K → Bool) : Nat → Iter K → Iter K
  | 0, st => st
  | n + 1, st =>
      match st.reduceBuffer with
      | [] => st
      | (k, res) :: rest =>
          Iter.drainLoop keq n
            (Iter.launchReduce keq { st with reduceBuffer := rest } k res)

/-- `IterativePromise#reduce(reduceFn, initialValue)`: set the reduce
function, apply the seed only when truthy (`if (initialValue)
this.init(initialValue)`), then drain the buffer in FIFO order. -/
def Iter.reduceAttach (keq : K → K → Bool) (st : Iter K) (f : ReduceFn K)
    (initialValue : JSVal) : Iter K :=
  let st1 := { st with reduceFn := some f }
  let st2 := if truthy initialValue then { st1 with acc := initialValue } else st1
  Iter.drainLoop keq st2.reduceBuffer.length st2

/-- `IterativePromise#end(endFn)`: set the end function and launch the
end phase immediately when `_endShouldBeLaunched` is set. -/
def Iter.endAttach (keq : K → K → Bool) (st : Iter K) (g : EndFn K) : Iter K :=
  let st1 := { st with endFn := some g }
  if st1.endShouldBeLaunched then st1.launchEnd keq else st1

/-- `IterativePromise#init(init_value)`: set the accumulator
unconditionally. -/
def Iter.initAcc (st : Iter K) (v : JSVal) : Iter K :=
  { st with acc := v }

/-- `IterativePromise#start(array)`: once only; an argument replaces
`to_map`; a non-empty key list is dispatched in order, an empty one
launches the end phase directly. -/
def Iter.start (keq : K → K → Bool) (st : Iter K) (arr : Option (List K)) :
    Iter K :=
  if st.started then st
  else
    let st1 := { st with started := true }
    let st2 := match arr with
      | some a => { st1 with to_map := some a }
      | none => st1
    match st2.to_map with
    | some l => if l.length ≠ 0 then st2.feedAll keq l else st2.launchEnd keq
    | none => st2

/-- `IterativePromise#map(mapFn)`: the mapping behaviour is fixed in
the state; attaching starts the process when `to_map` is present. -/
def Iter.mapAttach (keq : K → K → Bool) (st : Iter K) : Iter K :=
  if st.to_map.isSome then st.start keq none else st

/-- One externally triggered step of a coordinator run: a public API
call or the settlement of a dispatched child future. -/
inductive Act (K : Type) where
  | attachMap
  | attachReduce (f : ReduceFn K) (initialValue : JSVal)
  | attachEnd (g : EndFn K)
  | setInit (v : JSVal)
  | startA (arr : Option (List K))
  | settleRes (k : K) (args : List JSVal)
  | settleRej (k : K) (args : List JSVal)
  | manualResolve (args : List JSVal)
  | manualReject (args : List JSVal)

/-- Apply one step. -/
def Iter.stepAct (keq : K → K → Bool) (w : Iter K) : Act K → Iter K
  | .attachMap => w.mapAttach keq
  | .attachReduce f v => w.reduceAttach keq f v
  | .attachEnd g => w.endAttach keq g
  | .setInit v => w.initAcc v
  | .startA arr => w.start keq arr
  | .settleRes k args => w.settle keq k true args
  | .settleRej k args => w.settle keq k false args
  | .manualResolve args => w.applyManual (some (true, args))
  | .manualReject args => w.applyManual (some (false, args))

/-- Run a sequence of steps. -/
def Iter.run (keq : K → K → Bool) (w : Iter K) (acts : List (Act K)) : Iter K :=
  acts.foldl (fun s a => s.stepAct keq a) w

/-- Written from the spec's words (claim C4): the number of dispatched
keys that appear in neither `resolvedKeys` nor `rejectedKeys`. -/
def Iter.dispatchedUnsettled (w : Iter K) : Nat :=
  (w.mapped.filter
    (fun k => !(decide (k ∈ w.resolvedK) || decide (k ∈ w.rejectedK)))).length

/-- The number of dispatched keys that were handed a future and appear
in neither `resolvedKeys` nor `rejectedKeys`. -/
def Iter.trackedUnsettled (w : Iter K) : Nat :=
  (w.children.filter
    (fun c => !(decide (c.1 ∈ w.resolvedK) || decide (c.1 ∈ w.rejectedK)))).length

/-- The number of tracked child futures still pending. -/
def Iter.pendingChildren (w : Iter K) : Nat :=
  (w.children.filter (fun c => !c.2)).length

/-- Convert a settlement call to the corresponding manual-completion
step of the coordinator (the coordinator inherits `resolve`/`reject`
from the promise prototype, so both run the same `_complete`). -/
def SettleCall.toAct : SettleCall → Act K
  | .res a => .manualResolve a
  | .rej a => .manualReject a

/-- Two coordinator states that agree on every field the run invariants
read: the bookkeeping core. -/
def Core (st st' : Iter K) : Prop :=
  st'.mapped = st.mapped ∧ st'.mapLog = st.mapLog ∧
  st'.children = st.children ∧ st'.onFly = st.onFly ∧
  st'.fut = st.fut ∧ st'.resolvedK = st.resolvedK ∧
  st'.rejectedK = st.rejectedK

/-- Closure conditions under which a predicate on coordinator states is
preserved by every operation of the coordinator: stability under
core-preserving field changes, under `_launchMap`, under manual
completion, and under the three bookkeeping updates a child settlement
performs. -/
structure PresKit (keq : K → K → Bool) (P : Iter K → Prop) : Prop where
  core : ∀ st st', Core st st' → P st → P st'
  lmap : ∀ st k, P st → P (st.launchMap keq k).1
  manual : ∀ st m, P st → P (st.applyManual m)
  book_res : ∀ (w : Iter K) (k : K), lookupChild w.children k = some false →
      w.fut.isCompleted = false → P w →
      P { w with children := markDone w.children k, onFly := w.onFly - 1,
                 resolvedK := w.resolvedK ++ [k] }
  book_rej : ∀ (w : Iter K) (k : K), lookupChild w.children k = some false →
      w.fut.isCompleted = false → P w →
      P { w with children := markDone w.children k, onFly := w.onFly - 1,
                 rejectedK := w.rejectedK ++ [k] }
  book_done : ∀ (w : Iter K) (k : K), lookupChild w.children k = some false →
      w.fut.isCompleted = true → P w →
      P { w with children := markDone w.children k, onFly := w.onFly - 1 }

/-- The per-run deduplication invariant: the mapping-function call log
is exactly `_mapped`, and no later entry of `_mapped` tests equal (via
`equalTestFn`) to an earlier one. -/
def DedupInv (keq : K → K → Bool) (w : Iter K) : Prop :=
  w.mapLog = w.mapped ∧ w.mapped.Pairwise (fun a b => keq b a = false)

/-- The full per-run bookkeeping invariant of the coordinator: the
mapping log matches `_mapped`, `_mapped` is duplicate-free under the
equality test, every tracked child was dispatched, tracked child keys
are distinct, the resolved/rejected keys are tracked child keys, and —
while the coordinator itself is unsettled — a child is settled exactly
when its key was recorded, with `_onFly` counting the pending
children. -/
structure GoodState (keq : K → K → Bool) (w : Iter K) : Prop where
  log_eq : w.mapLog = w.mapped
  dedup : w.mapped.Pairwise (fun a b => keq b a = false)
  child_mapped : ∀ c ∈ w.children, c.1 ∈ w.mapped
  child_nodup : (w.children.map Prod.fst).Nodup
  res_child : ∀ x ∈ w.resolvedK, x ∈ w.children.map Prod.fst
  rej_child : ∀ x ∈ w.rejectedK, x ∈ w.children.map Prod.fst
  done_iff : w.fut.isCompleted = false →
      ∀ c ∈ w.children, (c.2 = true ↔ (c.1 ∈ w.resolvedK ∨ c.1 ∈ w.rejectedK))
  fly_count : w.fut.isCompleted = false →
      w.onFly = (w.pendingChildren : Int)
  done_disabled : w.fut.isCompleted = true → w.fut.fireDisabled = true

/-- Equality test for `Nat` keys (the `===` branch of `equalTestFn`). -/
def keqN : Nat → Nat → Bool := fun a b => a == b

/-- Scenario A's reduce function: string concatenation
`(prev, r) => prev + r`. -/
def scenAReduce : ReduceFn Nat := fun prev args _k _rs _rj =>
  { feeds := [], manual := none,
    result := match prev, args.headD .undef with
              | .str a, .str b => .str (a ++ b)
              | _, _ => .undef }

/-- An end function that does nothing. -/
def noopEnd : EndFn Nat := fun _ _ _ => { feeds := [], manual := none }

/-- Scenario A of the spec: keys `[0, 1]`, mapping returns two distinct
pending futures, reduce seeded with `"init"`, key 0 resolves `"hi"`,
then key 1 resolves `"ho"`. -/
def scenarioA : Iter Nat :=
  Iter.run keqN (mkIter (some [0, 1]) (fun _ => true))
    [.attachMap, .attachReduce scenAReduce (.str "init"), .attachEnd noopEnd,
     .settleRes 0 [.str "hi"], .settleRes 1 [.str "ho"]]

/-- A reduce function that keeps the accumulator unchanged. -/
def idReduce : ReduceFn Nat := fun prev _ _ _ _ =>
  { feeds := [], manual := none, result := prev }

/-- A run in which the finish condition was reached with no end
function attached, after which the caller manually resolved the
coordinator: key 0 resolves, then `resolve("m")` is called. -/
def lateAttachWorld : Iter Nat :=
  Iter.run keqN (mkIter (some [0]) (fun _ => true))
    [.attachMap, .attachReduce idReduce (.str "i"), .settleRes 0 [.str "a"],
     .manualResolve [.str "m"]]

/-- An end function that feeds the already-dispatched key 0 back in. -/
def endDupFn : EndFn Nat := fun _ _ _ => { feeds := [0], manual := none }

/-- A run whose end function feeds forward the already-dispatched
key 0. -/
def endDupWorld : Iter Nat :=
  Iter.run keqN (mkIter (some [0]) (fun _ => true))
    [.attachMap, .attachReduce idReduce (.str "i"), .attachEnd endDupFn,
     .settleRes 0 [.str "a"]]

/-- A reduce function that manually resolves the coordinator. -/
def manualReduceFn : ReduceFn Nat := fun prev _ _ _ _ =>
  { feeds := [], manual := some (true, [.str "done"]), result := prev }

/-- A run in which the reduce step for key 0 manually resolves the
coordinator while key 1's future is still outstanding, after which
key 1's future resolves. -/
def manualWorld : Iter Nat :=
  Iter.run keqN (mkIter (some [0, 1]) (fun _ => true))
    [.attachMap, .attachReduce manualReduceFn (.str "init"),
     .settleRes 0 [.str "hi"], .settleRes 1 [.str "ho"]]

/-- A promise on which a callback was registered, then `cancel` was
called, then `resolve("hi")`. -/
def cancelledPromise : Promise :=
  ((Promise.fresh.addCallback 0 .undefCtx).1.cancel.resolve [.str "hi"]).1

/-- A pending promise with one callback and one errback registered. -/
def witnessPromise : Promise :=
  ((Promise.fresh.addCallback 3 (.user 7)).1.addErrback 4 (.user 8)).1

/-- A fresh coordinator whose promise part is `witnessPromise`. -/
def witnessIter : Iter Nat :=
  { mkIter none (fun _ => false) with fut := witnessPromise }

/-- A run with keys `[0, 1]` dispatched and a reduce function attached,
both children still pending. -/
def rejectWitnessWorld : Iter Nat :=
  Iter.run keqN (mkIter (some [0, 1]) (fun _ => true))
    [.attachMap, .attachReduce idReduce (.str "i")]

end Eventually

namespace Eventually

@[simp] theorem launchMap_resolvedK {K : Type} (keq : K → K → Bool) (st : Iter K) (k : K) :
    (st.launchMap keq k).1.resolvedK = st.resolvedK := by
  simp only [Iter.launchMap]; split <;> [rfl; split <;> rfl]

@[simp] theorem launchMap_rejectedK {K : Type} (keq : K → K → Bool) (st : Iter K) (k : K) :
    (st.launchMap keq k).1.rejectedK = st.rejectedK := by
  simp only [Iter.launchMap]; split <;> [rfl; split <;> rfl]

@[simp] theorem launchMap_acc {K : Type} (keq : K → K → Bool) (st : Iter K) (k : K) :
    (st.launchMap keq k).1.acc = st.acc := by
  simp only [Iter.launchMap]; split <;> [rfl; split <;> rfl]

@[simp] theorem launchMap_reduceLog {K : Type} (keq : K → K → Bool) (st : Iter K) (k : K) :
    (st.launchMap keq k).1.reduceLog = st.reduceLog := by
  simp only [Iter.launchMap]; split <;> [rfl; split <;> rfl]

@[simp] theorem launchMap_reduceBuffer {K : Type} (keq : K → K → Bool) (st : Iter K) (k : K) :
    (st.launchMap keq k).1.reduceBuffer = st.reduceBuffer := by
  simp only [Iter.launchMap]; split <;> [rfl; split <;> rfl]

@[simp] theorem launchMap_endShould {K : Type} (keq : K → K → Bool) (st : Iter K) (k : K) :
    (st.launchMap keq k).1.endShouldBeLaunched = st.endShouldBeLaunched := by
  simp only [Iter.launchMap]; split <;> [rfl; split <;> rfl]

@[simp] theorem launchMap_endLog {K : Type} (keq : K → K → Bool) (st : Iter K) (k : K) :
    (st.launchMap keq k).1.endLog = st.endLog := by
  simp only [Iter.launchMap]; split <;> [rfl; split <;> rfl]

@[simp] theorem launchMap_reduceFn {K : Type} (keq : K → K → Bool) (st : Iter K) (k : K) :
    (st.launchMap keq k).1.reduceFn = st.reduceFn := by
  simp only [Iter.launchMap]; split <;> [rfl; split <;> rfl]

@[simp] theorem launchMap_endFn {K : Type} (keq : K → K → Bool) (st : Iter K) (k : K) :
    (st.launchMap keq k).1.endFn = st.endFn := by
  simp only [Iter.launchMap]; split <;> [rfl; split <;> rfl]

@[simp] theorem launchMap_fut {K : Type} (keq : K → K → Bool) (st : Iter K) (k : K) :
    (st.launchMap keq k).1.fut = st.fut := by
  simp only [Iter.launchMap]; split <;> [rfl; split <;> rfl]

@[simp] theorem feedAll_nil {K : Type} (keq : K → K → Bool) (st : Iter K) :
    st.feedAll keq [] = st := rfl

theorem feedAll_cons {K : Type} (keq : K → K → Bool) (st : Iter K) (a : K) (l : List K) :
    st.feedAll keq (a :: l) = ((st.launchMap keq a).1).feedAll keq l := rfl

@[simp] theorem feedAll_resolvedK {K : Type} (keq : K → K → Bool) (ks : List K) (st : Iter K) :
    (st.feedAll keq ks).resolvedK = st.resolvedK := by
  induction ks generalizing st with
  | nil => rfl
  | cons a l ih => rw [feedAll_cons, ih, launchMap_resolvedK]

@[simp] theorem feedAll_rejectedK {K : Type} (keq : K → K → Bool) (ks : List K) (st : Iter K) :
    (st.feedAll keq ks).rejectedK = st.rejectedK := by
  induction ks generalizing st with
  | nil => rfl
  | cons a l ih => rw [feedAll_cons, ih, launchMap_rejectedK]

@[simp] theorem feedAll_acc {K : Type} (keq : K → K → Bool) (ks : List K) (st : Iter K) :
    (st.feedAll keq ks).acc = st.acc := by
  induction ks generalizing st with
  | nil => rfl
  | cons a l ih => rw [feedAll_cons, ih, launchMap_acc]

@[simp] theorem feedAll_reduceLog {K : Type} (keq : K → K → Bool) (ks : List K) (st : Iter K) :
    (st.feedAll keq ks).reduceLog = st.reduceLog := by
  induction ks generalizing st with
  | nil => rfl
  | cons a l ih => rw [feedAll_cons, ih, launchMap_reduceLog]

@[simp] theorem feedAll_reduceBuffer {K : Type} (keq : K → K → Bool) (ks : List K) (st : Iter K) :
    (st.feedAll keq ks).reduceBuffer = st.reduceBuffer := by
  induction ks generalizing st with
  | nil => rfl
  | cons a l ih => rw [feedAll_cons, ih, launchMap_reduceBuffer]

@[simp] theorem feedAll_endShould {K : Type} (keq : K → K → Bool) (ks : List K) (st : Iter K) :
    (st.feedAll keq ks).endShouldBeLaunched = st.endShouldBeLaunched := by
  induction ks generalizing st with
  | nil => rfl
  | cons a l ih => rw [feedAll_cons, ih, launchMap_endShould]

@[simp] theorem feedAll_endLog {K : Type} (keq : K → K → Bool) (ks : List K) (st : Iter K) :
    (st.feedAll keq ks).endLog = st.endLog := by
  induction ks generalizing st with
  | nil => rfl
  | cons a l ih => rw [feedAll_cons, ih, launchMap_endLog]

@[simp] theorem feedAll_reduceFn {K : Type} (keq : K → K → Bool) (ks : List K) (st : Iter K) :
    (st.feedAll keq ks).reduceFn = st.reduceFn := by
  induction ks generalizing st with
  | nil => rfl
  | cons a l ih => rw [feedAll_cons, ih, launchMap_reduceFn]

@[simp] theorem feedAll_endFn {K : Type} (keq : K → K → Bool) (ks : List K) (st : Iter K) :
    (st.feedAll keq ks).endFn = st.endFn := by
  induction ks generalizing st with
  | nil => rfl
  | cons a l ih => rw [feedAll_cons, ih, launchMap_endFn]

@[simp] theorem feedAll_fut {K : Type} (keq : K → K → Bool) (ks : List K) (st : Iter K) :
    (st.feedAll keq ks).fut = st.fut := by
  induction ks generalizing st with
  | nil => rfl
  | cons a l ih => rw [feedAll_cons, ih, launchMap_fut]

@[simp] theorem applyManual_resolvedK {K : Type} (w : Iter K) (m : Option (Bool × List JSVal)) :
    (w.applyManual m).resolvedK = w.resolvedK := by
  rcases m with _ | ⟨b, args⟩ <;> [rfl; cases b <;> rfl]

@[simp] theorem applyManual_rejectedK {K : Type} (w : Iter K) (m : Option (Bool × List JSVal)) :
    (w.applyManual m).rejectedK = w.rejectedK := by
  rcases m with _ | ⟨b, args⟩ <;> [rfl; cases b <;> rfl]

@[simp] theorem applyManual_acc {K : Type} (w : Iter K) (m : Option (Bool × List JSVal)) :
    (w.applyManual m).acc = w.acc := by
  rcases m with _ | ⟨b, args⟩ <;> [rfl; cases b <;> rfl]

@[simp] theorem applyManual_reduceLog {K : Type} (w : Iter K) (m : Option (Bool × List JSVal)) :
    (w.applyManual m).reduceLog = w.reduceLog := by
  rcases m with _ | ⟨b, args⟩ <;> [rfl; cases b <;> rfl]

@[simp] theorem applyManual_reduceBuffer {K : Type} (w : Iter K) (m : Option (Bool × List JSVal)) :
    (w.applyManual m).reduceBuffer = w.reduceBuffer := by
  rcases m with _ | ⟨b, args⟩ <;> [rfl; cases b <;> rfl]

@[simp] theorem applyManual_endShould {K : Type} (w : Iter K) (m : Option (Bool × List JSVal)) :
    (w.applyManual m).endShouldBeLaunched = w.endShouldBeLaunched := by
  rcases m with _ | ⟨b, args⟩ <;> [rfl; cases b <;> rfl]

@[simp] theorem applyManual_endLog {K : Type} (w : Iter K) (m : Option (Bool × List JSVal)) :
    (w.applyManual m).endLog = w.endLog := by
  rcases m with _ | ⟨b, args⟩ <;> [rfl; cases b <;> rfl]

@[simp] theorem applyManual_reduceFn {K : Type} (w : Iter K) (m : Option (Bool × List JSVal)) :
    (w.applyManual m).reduceFn = w.reduceFn := by
  rcases m with _ | ⟨b, args⟩ <;> [rfl; cases b <;> rfl]

@[simp] theorem applyManual_endFn {K : Type} (w : Iter K) (m : Option (Bool × List JSVal)) :
    (w.applyManual m).endFn = w.endFn := by
  rcases m with _ | ⟨b, args⟩ <;> [rfl; cases b <;> rfl]

@[simp] theorem applyManual_mapped {K : Type} (w : Iter K) (m : Option (Bool × List JSVal)) :
    (w.applyManual m).mapped = w.mapped := by
  rcases m with _ | ⟨b, args⟩ <;> [rfl; cases b <;> rfl]

@[simp] theorem applyManual_mapLog {K : Type} (w : Iter K) (m : Option (Bool × List JSVal)) :
    (w.applyManual m).mapLog = w.mapLog := by
  rcases m with _ | ⟨b, args⟩ <;> [rfl; cases b <;> rfl]

@[simp] theorem applyManual_children {K : Type} (w : Iter K) (m : Option (Bool × List JSVal)) :
    (w.applyManual m).children = w.children := by
  rcases m with _ | ⟨b, args⟩ <;> [rfl; cases b <;> rfl]

@[simp] theorem applyManual_onFly {K : Type} (w : Iter K) (m : Option (Bool × List JSVal)) :
    (w.applyManual m).onFly = w.onFly := by
  rcases m with _ | ⟨b, args⟩ <;> [rfl; cases b <;> rfl]

theorem launchEnd_resolvedK {K : Type} (keq : K → K → Bool) (st : Iter K) :
    (st.launchEnd keq).resolvedK = st.resolvedK := by
  cases hg : st.endFn with
  | none => simp [Iter.launchEnd, hg]
  | some g =>
      simp only [Iter.launchEnd, hg]
      split
      · simp
      · split <;> simp

theorem launchEnd_rejectedK {K : Type} (keq : K → K → Bool) (st : Iter K) :
    (st.launchEnd keq).rejectedK = st.rejectedK := by
  cases hg : st.endFn with
  | none => simp [Iter.launchEnd, hg]
  | some g =>
      simp only [Iter.launchEnd, hg]
      split
      · simp
      · split <;> simp

theorem launchEnd_acc {K : Type} (keq : K → K → Bool) (st : Iter K) :
    (st.launchEnd keq).acc = st.acc := by
  cases hg : st.endFn with
  | none => simp [Iter.launchEnd, hg]
  | some g =>
      simp only [Iter.launchEnd, hg]
      split
      · simp
      · split <;> simp

theorem launchEnd_reduceLog {K : Type} (keq : K → K → Bool) (st : Iter K) :
    (st.launchEnd keq).reduceLog = st.reduceLog := by
  cases hg : st.endFn with
  | none => simp [Iter.launchEnd, hg]
  | some g =>
      simp only [Iter.launchEnd, hg]
      split
      · simp
      · split <;> simp

theorem launchEnd_reduceBuffer {K : Type} (keq : K → K → Bool) (st : Iter K) :
    (st.launchEnd keq).reduceBuffer = st.reduceBuffer := by
  cases hg : st.endFn with
  | none => simp [Iter.launchEnd, hg]
  | some g =>
      simp only [Iter.launchEnd, hg]
      split
      · simp
      · split <;> simp

theorem launchEnd_reduceFn {K : Type} (keq : K → K → Bool) (st : Iter K) :
    (st.launchEnd keq).reduceFn = st.reduceFn := by
  cases hg : st.endFn with
  | none => simp [Iter.launchEnd, hg]
  | some g =>
      simp only [Iter.launchEnd, hg]
      split
      · simp
      · split <;> simp

theorem launchEnd_endShould {K : Type} (keq : K → K → Bool) (st : Iter K) :
    (st.launchEnd keq).endShouldBeLaunched = true := by
  cases hg : st.endFn with
  | none => simp [Iter.launchEnd, hg]
  | some g =>
      simp only [Iter.launchEnd, hg]
      split
      · simp
      · split <;> simp

theorem launchEnd_endLog {K : Type} (keq : K → K → Bool) (st : Iter K) (g : EndFn K)
    (hg : st.endFn = some g) :
    (st.launchEnd keq).endLog
      = st.endLog ++ [(st.acc, st.resolvedK, st.rejectedK)] := by
  simp only [Iter.launchEnd, hg]
  split
  · simp
  · split <;> simp

theorem checkFinish_resolvedK {K : Type} (keq : K → K → Bool) (st : Iter K) :
    (st.checkFinish keq).resolvedK = st.resolvedK := by
  simp only [Iter.checkFinish]
  split <;> [exact launchEnd_resolvedK keq st; rfl]

theorem checkFinish_rejectedK {K : Type} (keq : K → K → Bool) (st : Iter K) :
    (st.checkFinish keq).rejectedK = st.rejectedK := by
  simp only [Iter.checkFinish]
  split <;> [exact launchEnd_rejectedK keq st; rfl]

theorem checkFinish_acc {K : Type} (keq : K → K → Bool) (st : Iter K) :
    (st.checkFinish keq).acc = st.acc := by
  simp only [Iter.checkFinish]
  split <;> [exact launchEnd_acc keq st; rfl]

theorem checkFinish_reduceLog {K : Type} (keq : K → K → Bool) (st : Iter K) :
    (st.checkFinish keq).reduceLog = st.reduceLog := by
  simp only [Iter.checkFinish]
  split <;> [exact launchEnd_reduceLog keq st; rfl]

theorem checkFinish_reduceBuffer {K : Type} (keq : K → K → Bool) (st : Iter K) :
    (st.checkFinish keq).reduceBuffer = st.reduceBuffer := by
  simp only [Iter.checkFinish]
  split <;> [exact launchEnd_reduceBuffer keq st; rfl]

end Eventually

namespace Eventually

/-- The fold of the reduce feed-forward closure is the plain dispatch
fold. -/
theorem reduceFeed_foldl {K : Type} (keq : K → K → Bool) (st : Iter K)
    (ks : List K) :
    List.foldl (fun s k2 => (reduceFeedMap keq s k2).1) st ks
      = st.feedAll keq ks := rfl

theorem PresKit.feedAll {K : Type} [DecidableEq K] {keq : K → K → Bool}
    {P : Iter K → Prop} (kit : PresKit keq P) (ks : List K) (st : Iter K)
    (hP : P st) : P (st.feedAll keq ks) := by
  induction ks generalizing st with
  | nil => exact hP
  | cons a l ih => exact ih _ (kit.lmap st a hP)

theorem PresKit.launchEnd {K : Type} [DecidableEq K] {keq : K → K → Bool}
    {P : Iter K → Prop} (kit : PresKit keq P) (st : Iter K)
    (hP : P st) : P (st.launchEnd keq) := by
  cases hg : st.endFn with
  | none =>
      simp only [Iter.launchEnd, hg]
      exact kit.core st _ ⟨rfl, rfl, rfl, rfl, rfl, rfl, rfl⟩ hP
  | some g =>
      simp only [Iter.launchEnd, hg]
      have h2 := kit.core st
        { st with endShouldBeLaunched := true, endFn := some g,
                  endLog := st.endLog ++ [(st.acc, st.resolvedK, st.rejectedK)] }
        ⟨rfl, rfl, rfl, rfl, rfl, rfl, rfl⟩ hP
      have h3 := kit.manual _ (g st.acc st.resolvedK st.rejectedK).manual h2
      split
      · exact kit.feedAll _ _ h3
      · split
        · exact kit.manual _ _ h3
        · exact h3

theorem PresKit.checkFinish {K : Type} [DecidableEq K] {keq : K → K → Bool}
    {P : Iter K → Prop} (kit : PresKit keq P) (st : Iter K)
    (hP : P st) : P (st.checkFinish keq) := by
  simp only [Iter.checkFinish]
  split
  · exact kit.launchEnd st hP
  · exact hP

theorem PresKit.launchReduce {K : Type} [DecidableEq K] {keq : K → K → Bool}
    {P : Iter K → Prop} (kit : PresKit keq P) (st : Iter K) (k : K)
    (result : List JSVal) (hP : P st) : P (st.launchReduce keq k result) := by
  cases hf : st.reduceFn with
  | none =>
      simp only [Iter.launchReduce, hf]
      exact kit.core st _ ⟨rfl, rfl, rfl, rfl, rfl, rfl, rfl⟩ hP
  | some f =>
      simp only [Iter.launchReduce, hf, reduceFeed_foldl]
      have h1 := kit.core st
        { st with reduceFn := some f,
                  reduceLog := st.reduceLog ++ [(st.acc, result, k)] }
        ⟨rfl, rfl, rfl, rfl, rfl, rfl, rfl⟩ hP
      have h2 := kit.feedAll (f st.acc result k st.resolvedK st.rejectedK).feeds _ h1
      have h3 := kit.manual _ (f st.acc result k st.resolvedK st.rejectedK).manual h2
      refine kit.checkFinish _ (kit.core _ _ ?_ h3)
      exact ⟨rfl, rfl, rfl, rfl, rfl, rfl, rfl⟩

theorem PresKit.settle {K : Type} [DecidableEq K] {keq : K → K → Bool}
    {P : Iter K → Prop} (kit : PresKit keq P) (w : Iter K) (k : K)
    (flag : Bool) (args : List JSVal) (hP : P w) :
    P (w.settle keq k flag args) := by
  cases hc : lookupChild w.children k with
  | none => simpa only [Iter.settle, hc] using hP
  | some d =>
      cases d with
      | true => simpa only [Iter.settle, hc] using hP
      | false =>
          simp only [Iter.settle, hc]
          split
          · rename_i hncomp
            have hcf : w.fut.isCompleted = false := by simpa using hncomp
            cases flag with
            | true =>
                simp only [if_true]
                exact kit.launchReduce _ k args (kit.book_res w k hc hcf hP)
            | false =>
                simp only [Bool.false_eq_true, if_false]
                exact kit.checkFinish _ (kit.book_rej w k hc hcf hP)
          · rename_i hcomp
            have hct : w.fut.isCompleted = true := by simpa using hcomp
            exact kit.book_done w k hc hct hP

theorem PresKit.drainLoop {K : Type} [DecidableEq K] {keq : K → K → Bool}
    {P : Iter K → Prop} (kit : PresKit keq P) (n : Nat) (st : Iter K)
    (hP : P st) : P (Iter.drainLoop keq n st) := by
  induction n generalizing st with
  | zero => exact hP
  | succ m ih =>
      simp only [Iter.drainLoop]
      cases hb : st.reduceBuffer with
      | nil => exact hP
      | cons pr rest =>
          refine ih _ (kit.launchReduce _ pr.1 pr.2 (kit.core st _ ?_ hP))
          exact ⟨rfl, rfl, rfl, rfl, rfl, rfl, rfl⟩

theorem PresKit.reduceAttach {K : Type} [DecidableEq K] {keq : K → K → Bool}
    {P : Iter K → Prop} (kit : PresKit keq P) (st : Iter K) (f : ReduceFn K)
    (v : JSVal) (hP : P st) : P (st.reduceAttach keq f v) := by
  simp only [Iter.reduceAttach]
  split
  · refine kit.drainLoop _ _ (kit.core st _ ?_ hP)
    exact ⟨rfl, rfl, rfl, rfl, rfl, rfl, rfl⟩
  · refine kit.drainLoop _ _ (kit.core st _ ?_ hP)
    exact ⟨rfl, rfl, rfl, rfl, rfl, rfl, rfl⟩

theorem PresKit.endAttach {K : Type} [DecidableEq K] {keq : K → K → Bool}
    {P : Iter K → Prop} (kit : PresKit keq P) (st : Iter K) (g : EndFn K)
    (hP : P st) : P (st.endAttach keq g) := by
  simp only [Iter.endAttach]
  split
  · refine kit.launchEnd _ (kit.core st _ ?_ hP)
    exact ⟨rfl, rfl, rfl, rfl, rfl, rfl, rfl⟩
  · exact kit.core st _ ⟨rfl, rfl, rfl, rfl, rfl, rfl, rfl⟩ hP

theorem PresKit.start {K : Type} [DecidableEq K] {keq : K → K → Bool}
    {P : Iter K → Prop} (kit : PresKit keq P) (st : Iter K)
    (arr : Option (List K)) (hP : P st) : P (st.start keq arr) := by
  cases arr with
  | some a =>
      simp only [Iter.start]
      split
      · exact hP
      · split
        · refine kit.feedAll _ _ (kit.core st _ ?_ hP)
          exact ⟨rfl, rfl, rfl, rfl, rfl, rfl, rfl⟩
        · refine kit.launchEnd _ (kit.core st _ ?_ hP)
          exact ⟨rfl, rfl, rfl, rfl, rfl, rfl, rfl⟩
  | none =>
      simp only [Iter.start]
      split
      · exact hP
      · split
        · split
          · refine kit.feedAll _ _ (kit.core st _ ?_ hP)
            exact ⟨rfl, rfl, rfl, rfl, rfl, rfl, rfl⟩
          · refine kit.launchEnd _ (kit.core st _ ?_ hP)
            exact ⟨rfl, rfl, rfl, rfl, rfl, rfl, rfl⟩
        · exact kit.core st _ ⟨rfl, rfl, rfl, rfl, rfl, rfl, rfl⟩ hP

theorem PresKit.mapAttach {K : Type} [DecidableEq K] {keq : K → K → Bool}
    {P : Iter K → Prop} (kit : PresKit keq P) (st : Iter K)
    (hP : P st) : P (st.mapAttach keq) := by
  simp only [Iter.mapAttach]
  split
  · exact kit.start _ none hP
  · exact hP

theorem PresKit.stepAct {K : Type} [DecidableEq K] {keq : K → K → Bool}
    {P : Iter K → Prop} (kit : PresKit keq P) (w : Iter K) (a : Act K)
    (hP : P w) : P (w.stepAct keq a) := by
  cases a with
  | attachMap => exact kit.mapAttach w hP
  | attachReduce f v => exact kit.reduceAttach w f v hP
  | attachEnd g => exact kit.endAttach w g hP
  | setInit v =>
      exact kit.core w _ ⟨rfl, rfl, rfl, rfl, rfl, rfl, rfl⟩ hP
  | startA arr => exact kit.start w arr hP
  | settleRes k args => exact kit.settle w k true args hP
  | settleRej k args => exact kit.settle w k false args hP
  | manualResolve args =>
      exact kit.manual w (some (true, args)) hP
  | manualReject args =>
      exact kit.manual w (some (false, args)) hP

theorem PresKit.run {K : Type} [DecidableEq K] {keq : K → K → Bool}
    {P : Iter K → Prop} (kit : PresKit keq P) (w : Iter K)
    (acts : List (Act K)) (hP : P w) : P (w.run keq acts) := by
  induction acts generalizing w with
  | nil => exact hP
  | cons a l ih => exact ih _ (kit.stepAct w a hP)

end Eventually

namespace Eventually

theorem lookupChild_cons_pos {K : Type} [DecidableEq K] (c : K × Bool)
    (rest : List (K × Bool)) (k : K) (h : c.1 = k) :
    lookupChild (c :: rest) k = some c.2 := by
  simp [lookupChild, List.find?_cons_of_pos, h]

theorem lookupChild_cons_neg {K : Type} [DecidableEq K] (c : K × Bool)
    (rest : List (K × Bool)) (k : K) (h : ¬ c.1 = k) :
    lookupChild (c :: rest) k = lookupChild rest k := by
  simp [lookupChild, List.find?_cons_of_neg, h]

theorem lookupChild_mem {K : Type} [DecidableEq K] {l : List (K × Bool)}
    {k : K} {d : Bool} (h : lookupChild l k = some d) :
    k ∈ l.map Prod.fst := by
  induction l with
  | nil => simp [lookupChild] at h
  | cons c rest ih =>
      by_cases hc : c.1 = k
      · simp [← hc]
      · rw [lookupChild_cons_neg c rest k hc] at h
        simp [ih h]

theorem markDone_map_fst {K : Type} [DecidableEq K] (l : List (K × Bool)) (k : K) :
    (markDone l k).map Prod.fst = l.map Prod.fst := by
  induction l with
  | nil => rfl
  | cons c rest ih =>
      simp only [markDone]
      split
      · simp
      · simp [ih]

theorem markDone_mem {K : Type} [DecidableEq K] {l : List (K × Bool)} {k : K}
    {c : K × Bool} (hnd : (l.map Prod.fst).Nodup) (hc : c ∈ markDone l k) :
    (c ∈ l ∧ c.1 ≠ k) ∨ c = (k, true) := by
  induction l with
  | nil => simp [markDone] at hc
  | cons c0 rest ih =>
      rw [List.map_cons] at hnd
      obtain ⟨hk0, hndr⟩ := List.nodup_cons.mp hnd
      by_cases h0 : c0.1 = k
      · rw [markDone, if_pos h0] at hc
        rcases List.mem_cons.mp hc with heq | hmem
        · right
          rw [heq, h0]
        · left
          refine ⟨List.mem_cons_of_mem _ hmem, ?_⟩
          intro hck
          have hmm : c.1 ∈ List.map Prod.fst rest := List.mem_map_of_mem _ hmem
          rw [hck, ← h0] at hmm
          exact hk0 hmm
      · rw [markDone, if_neg h0] at hc
        rcases List.mem_cons.mp hc with heq | hmem
        · left
          exact ⟨by rw [heq]; exact List.mem_cons_self _ _, by rw [heq]; exact h0⟩
        · rcases ih hndr hmem with ⟨hm, hne⟩ | heq
          · exact .inl ⟨List.mem_cons_of_mem _ hm, hne⟩
          · exact .inr heq

theorem markDone_pending_len {K : Type} [DecidableEq K] {l : List (K × Bool)}
    {k : K} (h : lookupChild l k = some false) :
    ((markDone l k).filter (fun c => !c.2)).length + 1
      = (l.filter (fun c => !c.2)).length := by
  induction l with
  | nil => simp [lookupChild] at h
  | cons c0 rest ih =>
      by_cases h0 : c0.1 = k
      · have h2 : c0.2 = false := by
          have := lookupChild_cons_pos c0 rest k h0
          rw [this] at h
          exact Option.some_inj.mp h
        rw [markDone, if_pos h0]
        simp [List.filter_cons, h2]
      · have h' : lookupChild rest k = some false := by
          rw [← lookupChild_cons_neg c0 rest k h0]
          exact h
        have hih := ih h'
        rw [markDone, if_neg h0]
        cases hc2 : c0.2 <;> simp [List.filter_cons, hc2] <;> omega

theorem dedupInv_launchMap {K : Type} (keq : K → K → Bool) (st : Iter K)
    (k : K) (h : DedupInv keq st) : DedupInv keq (st.launchMap keq k).1 := by
  obtain ⟨h1, h2⟩ := h
  by_cases hg : st.mapped.any (fun k2 => keq k k2) = true
  · simp only [Iter.launchMap, hg, if_true]
    exact ⟨h1, h2⟩
  · have hg' : st.mapped.any (fun k2 => keq k k2) = false := by
      simpa using hg
    have hall : ∀ a ∈ st.mapped, keq k a = false := by
      intro a ha
      have := List.any_eq_false.mp hg' a ha
      simpa using this
    simp only [Iter.launchMap, hg', Bool.false_eq_true, if_false]
    constructor <;> split
    · simp [h1]
    · simp [h1]
    · rw [List.pairwise_append]
      refine ⟨h2, List.pairwise_singleton _ _, ?_⟩
      intro a ha b hb
      rw [List.mem_singleton.mp hb]
      exact hall a ha
    · rw [List.pairwise_append]
      refine ⟨h2, List.pairwise_singleton _ _, ?_⟩
      intro a ha b hb
      rw [List.mem_singleton.mp hb]
      exact hall a ha

theorem dedupKit {K : Type} [DecidableEq K] (keq : K → K → Bool) :
    PresKit keq (DedupInv keq) := by
  refine ⟨?_, ?_, ?_, ?_, ?_, ?_⟩
  · intro st st' hc h
    obtain ⟨e1, e2, -, -, -, -, -⟩ := hc
    exact ⟨by rw [e1, e2]; exact h.1, by rw [e1]; exact h.2⟩
  · exact fun st k h => dedupInv_launchMap keq st k h
  · intro st m h
    exact ⟨by rw [applyManual_mapLog, applyManual_mapped]; exact h.1,
           by rw [applyManual_mapped]; exact h.2⟩
  · intro w k _ _ h
    exact h
  · intro w k _ _ h
    exact h
  · intro w k _ _ h
    exact h

end Eventually

namespace Eventually

theorem Promise.not_completed_state {p : Promise}
    (h : p.isCompleted = false) : p.state = .progress := by
  cases hs : p.state <;> simp_all [Promise.isCompleted]

theorem Promise.resolve_noop {p : Promise} (h : p.fireDisabled = true)
    (args : List JSVal) : p.resolve args = (p, []) := by
  simp [Promise.resolve, h]

theorem Promise.reject_noop {p : Promise} (h : p.fireDisabled = true)
    (args : List JSVal) : p.reject args = (p, []) := by
  simp [Promise.reject, h]

theorem Promise.resolve_completes {p : Promise} (h1 : p.fireDisabled = false)
    (h2 : p.state = .progress) (args : List JSVal) :
    (p.resolve args).1.isCompleted = true ∧
    (p.resolve args).1.fireDisabled = true := by
  simp [Promise.resolve, Promise.complete, Ev.fire, h1, h2, Promise.isCompleted]

theorem Promise.reject_completes {p : Promise} (h1 : p.fireDisabled = false)
    (h2 : p.state = .progress) (args : List JSVal) :
    (p.reject args).1.isCompleted = true ∧
    (p.reject args).1.fireDisabled = true := by
  simp [Promise.reject, Promise.complete, Ev.fire, h1, h2, Promise.isCompleted]

theorem goodState_core {K : Type} (keq : K → K → Bool) (st st' : Iter K)
    (hc : Core st st') (h : GoodState keq st) : GoodState keq st' := by
  obtain ⟨e1, e2, e3, e4, e5, e6, e7⟩ := hc
  constructor
  · rw [e1, e2]; exact h.log_eq
  · rw [e1]; exact h.dedup
  · intro c hcm
    rw [e1]
    exact h.child_mapped c (by rwa [e3] at hcm)
  · rw [e3]; exact h.child_nodup
  · intro x hx
    rw [e3]
    exact h.res_child x (by rwa [e6] at hx)
  · intro x hx
    rw [e3]
    exact h.rej_child x (by rwa [e7] at hx)
  · intro hf c hcm
    rw [e6, e7]
    exact h.done_iff (by rwa [e5] at hf) c (by rwa [e3] at hcm)
  · intro hf
    have := h.fly_count (by rwa [e5] at hf)
    rw [e4, this]
    simp only [Iter.pendingChildren, e3]
  · intro hf
    rw [e5]
    exact h.done_disabled (by rwa [e5] at hf)

theorem goodState_launchMap {K : Type} (keq : K → K → Bool)
    (href : ∀ k0, keq k0 k0 = true) (st : Iter K) (k : K)
    (h : GoodState keq st) : GoodState keq (st.launchMap keq k).1 := by
  by_cases hg : st.mapped.any (fun k2 => keq k k2) = true
  · simp only [Iter.launchMap, hg, if_true]
    exact h
  · have hg' : st.mapped.any (fun k2 => keq k k2) = false := by simpa using hg
    have hall : ∀ a ∈ st.mapped, keq k a = false := fun a ha => by
      simpa using List.any_eq_false.mp hg' a ha
    have hkm : k ∉ st.mapped := fun hk => by
      have hx := hall k hk
      rw [href k] at hx
      simp at hx
    have hkc : k ∉ st.children.map Prod.fst := fun hk => by
      obtain ⟨c, hcm, hc1⟩ := List.mem_map.mp hk
      have hx := h.child_mapped c hcm
      rw [hc1] at hx
      exact hkm hx
    simp only [Iter.launchMap, hg', Bool.false_eq_true, if_false]
    split
    · constructor
      · simp [h.log_eq]
      · rw [List.pairwise_append]
        refine ⟨h.dedup, List.pairwise_singleton _ _, ?_⟩
        intro a ha b hb
        rw [List.mem_singleton.mp hb]
        exact hall a ha
      · intro c hc
        rcases List.mem_append.mp hc with hold | hnew
        · exact List.mem_append_left _ (h.child_mapped c hold)
        · rw [List.mem_singleton.mp hnew]
          exact List.mem_append_right _ (List.mem_singleton_self k)
      · rw [List.map_append, List.nodup_append]
        refine ⟨h.child_nodup, by simp, ?_⟩
        intro a ha
        simp only [List.map_cons, List.map_nil, List.mem_singleton]
        intro heq
        rw [heq] at ha
        exact hkc ha
      · intro x hx
        rw [List.map_append]
        exact List.mem_append_left _ (h.res_child x hx)
      · intro x hx
        rw [List.map_append]
        exact List.mem_append_left _ (h.rej_child x hx)
      · intro hf c hc
        rcases List.mem_append.mp hc with hold | hnew
        · exact h.done_iff hf c hold
        · rw [List.mem_singleton.mp hnew]
          constructor
          · intro hfalse
            simp at hfalse
          · rintro (hr | hj)
            · exact absurd (h.res_child _ hr) hkc
            · exact absurd (h.rej_child _ hj) hkc
      · intro hf
        have hold := h.fly_count hf
        simp only [Iter.pendingChildren, List.filter_append] at *
        simp only [List.filter_cons, List.filter_nil]
        rw [hold]
        simp
      · intro hf
        exact h.done_disabled hf
    · constructor
      · simp [h.log_eq]
      · rw [List.pairwise_append]
        refine ⟨h.dedup, List.pairwise_singleton _ _, ?_⟩
        intro a ha b hb
        rw [List.mem_singleton.mp hb]
        exact hall a ha
      · intro c hc
        exact List.mem_append_left _ (h.child_mapped c hc)
      · exact h.child_nodup
      · intro x hx
        exact h.res_child x hx
      · intro x hx
        exact h.rej_child x hx
      · intro hf c hc
        exact h.done_iff hf c hc
      · intro hf
        exact h.fly_count hf
      · intro hf
        exact h.done_disabled hf

end Eventually

namespace Eventually

theorem goodState_manual {K : Type} (keq : K → K → Bool) (st : Iter K)
    (m : Option (Bool × List JSVal)) (h : GoodState keq st) :
    GoodState keq (st.applyManual m) := by
  rcases m with _ | ⟨b, args⟩
  · exact h
  · have key : ∀ q : Promise,
        (q = (st.fut.resolve args).1 ∨ q = (st.fut.reject args).1) →
        (q = st.fut ∨ (q.isCompleted = true ∧ q.fireDisabled = true)) := by
      intro q hq
      by_cases hd : st.fut.fireDisabled = true
      · left
        rcases hq with hq | hq <;> rw [hq]
        · rw [Promise.resolve_noop hd]
        · rw [Promise.reject_noop hd]
      · right
        have hd' : st.fut.fireDisabled = false := by simpa using hd
        have hnc : st.fut.isCompleted = false := by
          by_cases hcp : st.fut.isCompleted = true
          · exact absurd (h.done_disabled hcp) hd
          · simpa using hcp
        have hst := Promise.not_completed_state hnc
        rcases hq with hq | hq <;> rw [hq]
        · exact Promise.resolve_completes hd' hst args
        · exact Promise.reject_completes hd' hst args
    cases b
    · have hk := key (st.fut.reject args).1 (Or.inr rfl)
      constructor
      · exact h.log_eq
      · exact h.dedup
      · exact h.child_mapped
      · exact h.child_nodup
      · exact h.res_child
      · exact h.rej_child
      · intro hf c hc
        rcases hk with hk | ⟨hk1, -⟩
        · exact h.done_iff (by rwa [show (st.applyManual (some (false, args))).fut
            = (st.fut.reject args).1 from rfl, hk] at hf) c hc
        · rw [show (st.applyManual (some (false, args))).fut
            = (st.fut.reject args).1 from rfl, hk1] at hf
          simp at hf
      · intro hf
        rcases hk with hk | ⟨hk1, -⟩
        · exact h.fly_count (by rwa [show (st.applyManual (some (false, args))).fut
            = (st.fut.reject args).1 from rfl, hk] at hf)
        · rw [show (st.applyManual (some (false, args))).fut
            = (st.fut.reject args).1 from rfl, hk1] at hf
          simp at hf
      · intro hf
        rcases hk with hk | ⟨-, hk2⟩
        · rw [show (st.applyManual (some (false, args))).fut
            = (st.fut.reject args).1 from rfl, hk] at hf ⊢
          exact h.done_disabled hf
        · exact hk2
    · have hk := key (st.fut.resolve args).1 (Or.inl rfl)
      constructor
      · exact h.log_eq
      · exact h.dedup
      · exact h.child_mapped
      · exact h.child_nodup
      · exact h.res_child
      · exact h.rej_child
      · intro hf c hc
        rcases hk with hk | ⟨hk1, -⟩
        · exact h.done_iff (by rwa [show (st.applyManual (some (true, args))).fut
            = (st.fut.resolve args).1 from rfl, hk] at hf) c hc
        · rw [show (st.applyManual (some (true, args))).fut
            = (st.fut.resolve args).1 from rfl, hk1] at hf
          simp at hf
      · intro hf
        rcases hk with hk | ⟨hk1, -⟩
        · exact h.fly_count (by rwa [show (st.applyManual (some (true, args))).fut
            = (st.fut.resolve args).1 from rfl, hk] at hf)
        · rw [show (st.applyManual (some (true, args))).fut
            = (st.fut.resolve args).1 from rfl, hk1] at hf
          simp at hf
      · intro hf
        rcases hk with hk | ⟨-, hk2⟩
        · rw [show (st.applyManual (some (true, args))).fut
            = (st.fut.resolve args).1 from rfl, hk] at hf ⊢
          exact h.done_disabled hf
        · exact hk2

end Eventually

namespace Eventually

theorem goodState_book_res {K : Type} [DecidableEq K] (keq : K → K → Bool)
    (w : Iter K) (k : K) (hlk : lookupChild w.children k = some false)
    (hnc : w.fut.isCompleted = false) (h : GoodState keq w) :
    GoodState keq { w with children := markDone w.children k,
                           onFly := w.onFly - 1,
                           resolvedK := w.resolvedK ++ [k] } := by
  have hkmem : k ∈ w.children.map Prod.fst := lookupChild_mem hlk
  constructor
  · exact h.log_eq
  · exact h.dedup
  · intro c hc
    rcases markDone_mem h.child_nodup hc with ⟨hm, -⟩ | heq
    · exact h.child_mapped c hm
    · rw [heq]
      obtain ⟨c', hcm, hc1⟩ := List.mem_map.mp hkmem
      have := h.child_mapped c' hcm
      rwa [hc1] at this
  · rw [markDone_map_fst]
    exact h.child_nodup
  · intro x hx
    rw [markDone_map_fst]
    rcases List.mem_append.mp hx with hold | hnew
    · exact h.res_child x hold
    · rw [List.mem_singleton.mp hnew]
      exact hkmem
  · intro x hx
    rw [markDone_map_fst]
    exact h.rej_child x hx
  · intro hf c hc
    rcases markDone_mem h.child_nodup hc with ⟨hm, hne⟩ | heq
    · have hiff := h.done_iff hnc c hm
      constructor
      · intro h2
        rcases hiff.mp h2 with hr | hj
        · exact Or.inl (List.mem_append_left _ hr)
        · exact Or.inr hj
      · rintro (hr | hj)
        · rcases List.mem_append.mp hr with hold | hnew
          · exact hiff.mpr (Or.inl hold)
          · exact absurd (List.mem_singleton.mp hnew) hne
        · exact hiff.mpr (Or.inr hj)
    · rw [heq]
      simp
  · intro hf
    have hlen := markDone_pending_len hlk
    have hold := h.fly_count hnc
    simp only [Iter.pendingChildren] at *
    omega
  · intro hf
    exact absurd hf (by simp [hnc])

theorem goodState_book_rej {K : Type} [DecidableEq K] (keq : K → K → Bool)
    (w : Iter K) (k : K) (hlk : lookupChild w.children k = some false)
    (hnc : w.fut.isCompleted = false) (h : GoodState keq w) :
    GoodState keq { w with children := markDone w.children k,
                           onFly := w.onFly - 1,
                           rejectedK := w.rejectedK ++ [k] } := by
  have hkmem : k ∈ w.children.map Prod.fst := lookupChild_mem hlk
  constructor
  · exact h.log_eq
  · exact h.dedup
  · intro c hc
    rcases markDone_mem h.child_nodup hc with ⟨hm, -⟩ | heq
    · exact h.child_mapped c hm
    · rw [heq]
      obtain ⟨c', hcm, hc1⟩ := List.mem_map.mp hkmem
      have := h.child_mapped c' hcm
      rwa [hc1] at this
  · rw [markDone_map_fst]
    exact h.child_nodup
  · intro x hx
    rw [markDone_map_fst]
    exact h.res_child x hx
  · intro x hx
    rw [markDone_map_fst]
    rcases List.mem_append.mp hx with hold | hnew
    · exact h.rej_child x hold
    · rw [List.mem_singleton.mp hnew]
      exact hkmem
  · intro hf c hc
    rcases markDone_mem h.child_nodup hc with ⟨hm, hne⟩ | heq
    · have hiff := h.done_iff hnc c hm
      constructor
      · intro h2
        rcases hiff.mp h2 with hr | hj
        · exact Or.inl hr
        · exact Or.inr (List.mem_append_left _ hj)
      · rintro (hr | hj)
        · exact hiff.mpr (Or.inl hr)
        · rcases List.mem_append.mp hj with hold | hnew
          · exact hiff.mpr (Or.inr hold)
          · exact absurd (List.mem_singleton.mp hnew) hne
    · rw [heq]
      simp
  · intro hf
    have hlen := markDone_pending_len hlk
    have hold := h.fly_count hnc
    simp only [Iter.pendingChildren] at *
    omega
  · intro hf
    exact absurd hf (by simp [hnc])

theorem goodState_book_done {K : Type} [DecidableEq K] (keq : K → K → Bool)
    (w : Iter K) (k : K) (hlk : lookupChild w.children k = some false)
    (hct : w.fut.isCompleted = true) (h : GoodState keq w) :
    GoodState keq { w with children := markDone w.children k,
                           onFly := w.onFly - 1 } := by
  have hkmem : k ∈ w.children.map Prod.fst := lookupChild_mem hlk
  constructor
  · exact h.log_eq
  · exact h.dedup
  · intro c hc
    rcases markDone_mem h.child_nodup hc with ⟨hm, -⟩ | heq
    · exact h.child_mapped c hm
    · rw [heq]
      obtain ⟨c', hcm, hc1⟩ := List.mem_map.mp hkmem
      have := h.child_mapped c' hcm
      rwa [hc1] at this
  · rw [markDone_map_fst]
    exact h.child_nodup
  · intro x hx
    rw [markDone_map_fst]
    exact h.res_child x hx
  · intro x hx
    rw [markDone_map_fst]
    exact h.rej_child x hx
  · intro hf
    exact absurd hct (by simp [hf])
  · intro hf
    exact absurd hct (by simp [hf])
  · intro hf
    exact h.done_disabled hct

theorem goodKit {K : Type} [DecidableEq K] (keq : K → K → Bool)
    (href : ∀ k0, keq k0 k0 = true) : PresKit keq (GoodState keq) :=
  ⟨goodState_core keq, goodState_launchMap keq href, goodState_manual keq,
   goodState_book_res keq, goodState_book_rej keq, goodState_book_done keq⟩

theorem goodState_mkIter {K : Type} (keq : K → K → Bool)
    (tm : Option (List K)) (mr : K → Bool) :
    GoodState keq (mkIter tm mr) := by
  constructor
  · rfl
  · exact List.Pairwise.nil
  · intro c hc
    simp [mkIter] at hc
  · simp [mkIter]
  · intro x hx
    simp [mkIter] at hx
  · intro x hx
    simp [mkIter] at hx
  · intro _ c hc
    simp [mkIter] at hc
  · intro _
    simp [mkIter, Iter.pendingChildren]
  · intro hcp
    simp [mkIter, Promise.fresh, Promise.isCompleted] at hcp

end Eventually

namespace Eventually

/-- C1: for every pending, non-cancelled promise (and, through the
shared prototype functions, for the coordinator acting as a future),
any pair of settlement calls — resolve then reject, reject then
resolve, or the same one twice, with any argument lists — produces
exactly one observable settlement: the state transitions once to the
first call's state, the first call's arguments are captured on the
matching event, every listener of the matching kind fires exactly once,
in registration order, with those arguments and its registered
receiver, and the second call returns the promise unchanged and fires
nothing; the same holds for a coordinator whose promise part is `p`
under two manual completion steps. -/
theorem single_settlement {K : Type} [DecidableEq K] (keq : K → K → Bool)
    (p : Promise) (hp : p.PendingLive) (c1 c2 : SettleCall) (w : Iter K)
    (hw : w.fut = p) :
    (p.applyCall c1).1.state = c1.target ∧
    (c1.matchingEv (p.applyCall c1).1).firedArgs = some c1.args ∧
    (p.applyCall c1).2 =
      (c1.matchingEv p).listeners.map (fun l => ⟨l.handler, l.context, c1.args⟩) ∧
    (p.applyCall c1).1.applyCall c2 = ((p.applyCall c1).1, []) ∧
    ((w.stepAct keq c1.toAct).stepAct keq c2.toAct).fut = (p.applyCall c1).1 := by
  obtain ⟨h1, h2, h3, h4⟩ := hp
  subst hw
  cases c1 <;> cases c2 <;>
    simp [Promise.applyCall, Promise.resolve, Promise.reject, Promise.complete,
          Ev.fire, SettleCall.target, SettleCall.args, SettleCall.matchingEv,
          SettleCall.toAct, Iter.stepAct, Iter.applyManual, h1, h2, h3, h4]

/-- Witness for C1 at a concrete promise with one callback and one
errback registered. -/
theorem single_settlement_witness :
    (witnessPromise.applyCall (.res [.str "a"])).1.state = PState.resolved ∧
    (witnessPromise.applyCall (.res [.str "a"])).2
      = [⟨3, .user 7, [.str "a"]⟩] :=
  let H := single_settlement keqN witnessPromise ⟨rfl, rfl, rfl, rfl⟩
    (.res [.str "a"]) (.rej []) witnessIter rfl
  ⟨H.1, H.2.2.1.trans (by decide)⟩

/-- C9: on a promise settled from pending with given arguments,
registering a handler of the matching kind invokes it synchronously,
exactly once, with the captured arguments and the given receiver,
leaving the promise unchanged; registering a handler of the
non-matching kind does nothing; registration is a total operation
(no error). -/
theorem handlers_after_settlement (p : Promise) (hp : p.PendingLive)
    (args : List JSVal) (h g : Nat) (c c' : Ctx) :
    ((p.resolve args).1.addCallback h c = ((p.resolve args).1, [⟨h, c, args⟩])) ∧
    ((p.resolve args).1.addErrback g c' = ((p.resolve args).1, [])) ∧
    ((p.reject args).1.addErrback h c = ((p.reject args).1, [⟨h, c, args⟩])) ∧
    ((p.reject args).1.addCallback g c' = ((p.reject args).1, [])) := by
  obtain ⟨h1, h2, h3, h4⟩ := hp
  simp [Promise.resolve, Promise.reject, Promise.complete, Ev.fire, Ev.execute,
        Promise.addCallback, Promise.addErrback, Promise.isCompleted,
        Promise.isResolved, Promise.isRejected, h1, h2, h3, h4]

/-- Witness for C9 on a fresh promise resolved with one argument. -/
theorem handlers_after_settlement_witness :
    (Promise.fresh.resolve [.str "x"]).1.addCallback 1 (.user 3)
      = ((Promise.fresh.resolve [.str "x"]).1, [⟨1, .user 3, [.str "x"]⟩]) ∧
    (Promise.fresh.resolve [.str "x"]).1.addErrback 2 (.user 4)
      = ((Promise.fresh.resolve [.str "x"]).1, []) :=
  let H := handlers_after_settlement Promise.fresh ⟨rfl, rfl, rfl, rfl⟩
    [.str "x"] 1 2 (.user 3) (.user 4)
  ⟨H.1, H.2.1⟩

/-- C5 (code bug evidence): after `addCallback(h); cancel();
resolve("hi")` the promise's state becomes `resolved` — contradicting
the cancel documentation "the promise stays in progress state" and the
claim that the state never changes — and a handler registered after
that resolve fires immediately (with no arguments, since the disabled
event never captured any), contradicting "none of its handlers ever
fires from that point on". -/
theorem cancel_then_resolve_observed :
    cancelledPromise.state = PState.resolved ∧
    cancelledPromise.inProgress = false ∧
    ((Promise.fresh.addCallback 0 .undefCtx).1.cancel.resolve [.str "hi"]).2 = [] ∧
    (cancelledPromise.addCallback 1 (.user 5)).2 = [⟨1, .user 5, []⟩] := by
  decide

/-- C8 counterexample: in the reject branch of `pipe`, an errback that
returns `undefined` (not an `Error`) makes the new promise reject with
no arguments — the claim's "any other return value resolves it" fails
for this input. -/
theorem pipe_undefined_errback_rejects :
    pipeHandlerBody false (some (fun _ => .val .undef)) [.num 12]
      = some (false, []) ∧
    ∀ args : List JSVal,
      pipeHandlerBody false (some (fun _ => .val .undef)) [.num 12]
        ≠ some (true, args) := by
  refine ⟨rfl, ?_⟩
  intro args h
  rw [show pipeHandlerBody false (some (fun _ => .val .undef)) [.num 12]
        = some (false, []) from rfl] at h
  simp at h

/-- C8 as amended: without a handler the branch passes through
unchanged; with a handler, an `undefined` return settles the new
promise in the same branch with no arguments, a returned promise is
adopted, an `Error` return rejects with the error, and any other
defined non-promise return resolves with the returned value. -/
theorem pipe_branch_semantics (action : Bool) (f : List JSVal → PipeRet)
    (args : List JSVal) :
    (pipeHandlerBody action none args = some (action, args)) ∧
    (f args = .val .undef → pipeHandlerBody action (some f) args = some (action, [])) ∧
    (∀ o, f args = .promise o → pipeHandlerBody action (some f) args = o) ∧
    (∀ m, f args = .val (.err m) →
        pipeHandlerBody action (some f) args = some (false, [.err m])) ∧
    (∀ v, f args = .val v → v ≠ .undef → isError v = false →
        pipeHandlerBody action (some f) args = some (true, [v])) := by
  refine ⟨rfl, ?_, ?_, ?_, ?_⟩
  · intro h; simp [pipeHandlerBody, h]
  · intro o h; simp [pipeHandlerBody, h]
  · intro m h; simp [pipeHandlerBody, h, isError]
  · intro v h hne he
    cases v <;> simp_all [pipeHandlerBody, isError]

/-- Witness for C8's amended semantics: a callback returning the plain
number 3 resolves the new promise with 3. -/
theorem pipe_branch_semantics_witness :
    pipeHandlerBody true (some (fun _ => .val (.num 3))) []
      = some (true, [.num 3]) :=
  (pipe_branch_semantics true (fun _ => .val (.num 3)) []).2.2.2.2
    (.num 3) rfl (by decide) rfl

/-- C6: in Scenario A the end function is invoked once with accumulator
`"inithiho"`, resolved keys `[0, 1]` and no rejected keys, and the
coordinator's own promise resolves with `"inithiho"`. -/
theorem scenarioA_outcome :
    scenarioA.endLog = [(.str "inithiho", [0, 1], [])] ∧
    scenarioA.resolvedK = [0, 1] ∧
    scenarioA.rejectedK = [] ∧
    scenarioA.fut.state = PState.resolved ∧
    scenarioA.fut.resolvedEv.firedArgs = some [.str "inithiho"] := by
  decide

/-- C2 counterexample: in `lateAttachWorld` the finish condition held
once (with no end function), then the caller manually resolved the
coordinator; attaching an end function afterwards still invokes it —
so the end phase is launched in a state where the coordinator is
already settled, refuting the claim's "only if ... not yet settled". -/
theorem end_launch_after_settlement :
    lateAttachWorld.fut.isCompleted = true ∧
    lateAttachWorld.endShouldBeLaunched = true ∧
    lateAttachWorld.endLog = [] ∧
    (lateAttachWorld.stepAct keqN (.attachEnd noopEnd)).endLog
      = [(.str "i", [0], [])] := by
  decide

/-- C2 as amended: the finish check launches the end phase exactly when
no operation is outstanding, the reduce buffer is empty and the
coordinator is not settled (and then, with an end function attached,
the end function runs); when the condition fails the check changes
nothing; attaching an end function while `_endShouldBeLaunched` is set
invokes it immediately and synchronously, even if the coordinator has
settled since; `start` on an empty key sequence launches the end phase
directly. -/
theorem finish_predicate_gate {K : Type} [DecidableEq K] (keq : K → K → Bool)
    (st : Iter K) (g g' : EndFn K) :
    ((st.onFly == 0 && st.reduceBuffer.isEmpty && !st.fut.isCompleted) = true →
        st.checkFinish keq = st.launchEnd keq ∧
        (st.checkFinish keq).endShouldBeLaunched = true ∧
        (st.endFn = some g' →
          (st.checkFinish keq).endLog
            = st.endLog ++ [(st.acc, st.resolvedK, st.rejectedK)])) ∧
    ((st.onFly == 0 && st.reduceBuffer.isEmpty && !st.fut.isCompleted) = false →
        st.checkFinish keq = st) ∧
    (st.endShouldBeLaunched = true →
        (st.endAttach keq g).endLog
          = st.endLog ++ [(st.acc, st.resolvedK, st.rejectedK)]) ∧
    (st.started = false →
        st.start keq (some []) =
          Iter.launchEnd keq { st with started := true, to_map := some [] }) := by
  refine ⟨?_, ?_, ?_, ?_⟩
  · intro h
    have he : st.checkFinish keq = st.launchEnd keq := by
      simp only [Iter.checkFinish, h, if_true]
    refine ⟨he, ?_, ?_⟩
    · rw [he]
      exact launchEnd_endShould keq st
    · intro hg
      rw [he]
      exact launchEnd_endLog keq st g' hg
  · intro h
    simp only [Iter.checkFinish, h, Bool.false_eq_true, if_false]
  · intro h
    simp only [Iter.endAttach, h, if_true]
    exact launchEnd_endLog keq _ g rfl
  · intro h
    simp only [Iter.start, h, Bool.false_eq_true, if_false, List.length_nil,
      ne_eq, not_true_eq_false]

/-- Witness for C2's amended gate: a fresh coordinator's finish check
launches the end phase, and a late end attach on `lateAttachWorld`
invokes the end function immediately. -/
theorem finish_predicate_gate_witness :
    (mkIter (some [0]) (fun _ => true) : Iter Nat).checkFinish keqN
      = (mkIter (some [0]) (fun _ => true)).launchEnd keqN ∧
    (lateAttachWorld.endAttach keqN noopEnd).endLog
      = lateAttachWorld.endLog
        ++ [(lateAttachWorld.acc, lateAttachWorld.resolvedK,
             lateAttachWorld.rejectedK)] :=
  ⟨((finish_predicate_gate keqN (mkIter (some [0]) (fun _ => true))
      noopEnd noopEnd).1 (by decide)).1,
   (finish_predicate_gate keqN lateAttachWorld noopEnd noopEnd).2.2.1
     (by decide)⟩

/-- C3 counterexample: in `endDupWorld` the end function feeds forward
the already-dispatched key 0; the end feed-forward closure returns
`undefined` (`none`), not `false`, and — although the mapping function
is indeed not invoked again (`mapLog = [0]`) — the recorded duplicate
suppresses the auto-resolve, leaving the coordinator unsettled. -/
theorem end_feed_duplicate_not_false :
    endDupWorld.mapped = [0] ∧
    (endFeedMap ([] : List Nat) 0).2 = none ∧
    (∀ b : Bool, (endFeedMap ([] : List Nat) 0).2 ≠ some b) ∧
    endDupWorld.endLog = [(.str "i", [0], [])] ∧
    endDupWorld.mapLog = [0] ∧
    endDupWorld.fut.isCompleted = false := by
  refine ⟨by decide, rfl, ?_, by decide, by decide, by decide⟩
  intro b h
  simp [endFeedMap] at h

/-- C3 as amended: a repeated dispatch (`_launchMap`) of a key that is
already mapped under the active equality rule returns `false`, leaves
the coordinator state unchanged and does not invoke the mapping
function; the reduce feed-forward behaves identically (wrapping the
same call); the end feed-forward merely records the key and returns
`undefined`; and over every run the mapping function is invoked at
most once per distinct key: the call log equals `_mapped`, in which no
later key tests equal to an earlier one. -/
theorem dedup_semantics {K : Type} [DecidableEq K] (keq : K → K → Bool)
    (st : Iter K) (k : K)
    (hd : st.mapped.any (fun k2 => keq k k2) = true) :
    st.launchMap keq k = (st, false) ∧
    reduceFeedMap keq st k = (st, some false) ∧
    (∀ (tM : List K) (k2 : K), endFeedMap tM k2 = (tM ++ [k2], none)) ∧
    (∀ (tm : Option (List K)) (mr : K → Bool) (acts : List (Act K)),
        ((mkIter tm mr).run keq acts).mapLog
          = ((mkIter tm mr).run keq acts).mapped ∧
        ((mkIter tm mr).run keq acts).mapped.Pairwise
          (fun a b => keq b a = false)) := by
  have h1 : st.launchMap keq k = (st, false) := by
    simp [Iter.launchMap, hd]
  refine ⟨h1, ?_, fun tM k2 => rfl, ?_⟩
  · rw [reduceFeedMap, h1]
  · intro tm mr acts
    exact (dedupKit keq).run _ acts ⟨rfl, List.Pairwise.nil⟩

/-- Witness for C3's amended dedup: re-dispatching the already-mapped
key 0 of `endDupWorld` returns `false` and changes nothing. -/
theorem dedup_semantics_witness :
    endDupWorld.launchMap keqN 0 = (endDupWorld, false) :=
  (dedup_semantics keqN endDupWorld 0 (by decide)).1

/-- C4 counterexample: in `manualWorld` the reduce step for key 0
manually resolved the coordinator while key 1 was outstanding; key 1's
later settlement decremented `_onFly` but recorded no bookkeeping, so
in the final reachable state `_onFly = 0` while one dispatched key
(key 1) appears in neither `resolvedKeys` nor `rejectedKeys`. -/
theorem outstanding_mismatch_after_settlement :
    manualWorld.onFly = 0 ∧
    manualWorld.dispatchedUnsettled = 1 ∧
    manualWorld.mapped = [0, 1] ∧
    manualWorld.resolvedK = [0] ∧
    manualWorld.rejectedK = [] ∧
    manualWorld.fut.isCompleted = true := by
  decide

/-- C4 as amended: for a reflexive equality test, in every reachable
coordinator state in which the coordinator's own promise has not
settled, `_onFly` equals the number of dispatched keys that were handed
a future and appear in neither `resolvedKeys` nor `rejectedKeys`. -/
theorem outstanding_tracked_invariant {K : Type} [DecidableEq K]
    (keq : K → K → Bool) (href : ∀ k0 : K, keq k0 k0 = true)
    (tm : Option (List K)) (mr : K → Bool) (acts : List (Act K))
    (hns : ((mkIter tm mr).run keq acts).fut.isCompleted = false) :
    ((mkIter tm mr).run keq acts).onFly
      = (((mkIter tm mr).run keq acts).trackedUnsettled : Int) := by
  have hG := (goodKit keq href).run (mkIter tm mr) acts
    (goodState_mkIter keq tm mr)
  have h7 := hG.fly_count hns
  have hiff := hG.done_iff hns
  rw [h7]
  have hpc : ((mkIter tm mr).run keq acts).pendingChildren
      = ((mkIter tm mr).run keq acts).trackedUnsettled := by
    simp only [Iter.pendingChildren, Iter.trackedUnsettled]
    congr 1
    apply List.filter_congr
    intro c hc
    have hcc := hiff c hc
    cases h2 : c.2 with
    | false =>
        have hnm : ¬(c.1 ∈ ((mkIter tm mr).run keq acts).resolvedK ∨
            c.1 ∈ ((mkIter tm mr).run keq acts).rejectedK) := by
          intro hm
          have hx := hcc.mpr hm
          rw [h2] at hx
          simp at hx
        push_neg at hnm
        simp [hnm.1, hnm.2]
    | true =>
        have hm := hcc.mp h2
        rcases hm with hm | hm <;> simp [hm]
  rw [hpc]

/-- Witness for C4's amended invariant after dispatching key 0. -/
theorem outstanding_tracked_invariant_witness :
    (Iter.run keqN (mkIter (some [0]) (fun _ => true)) [.attachMap]).onFly
      = ((Iter.run keqN (mkIter (some [0]) (fun _ => true))
          [.attachMap]).trackedUnsettled : Int) :=
  outstanding_tracked_invariant keqN (fun k0 => by simp [keqN])
    (some [0]) (fun _ => true) [.attachMap] (by decide)

/-- C7: when a pending dispatched future settles rejected while the
coordinator is unsettled, the settlement decrements `_onFly`, appends
the key to `rejectedKeys` and goes directly to the finish check; the
reduce function is not invoked, the accumulator is unchanged, and
nothing is buffered. -/
theorem reject_settlement_path {K : Type} [DecidableEq K] (keq : K → K → Bool)
    (w : Iter K) (k : K) (args : List JSVal)
    (hc : lookupChild w.children k = some false)
    (hns : w.fut.isCompleted = false) :
    w.settle keq k false args
      = Iter.checkFinish keq { w with children := markDone w.children k,
                                      onFly := w.onFly - 1,
                                      rejectedK := w.rejectedK ++ [k] } ∧
    (w.settle keq k false args).rejectedK = w.rejectedK ++ [k] ∧
    (w.settle keq k false args).reduceLog = w.reduceLog ∧
    (w.settle keq k false args).acc = w.acc ∧
    (w.settle keq k false args).reduceBuffer = w.reduceBuffer := by
  have h1 : w.settle keq k false args
      = Iter.checkFinish keq { w with children := markDone w.children k,
                                      onFly := w.onFly - 1,
                                      rejectedK := w.rejectedK ++ [k] } := by
    simp only [Iter.settle, hc]
    rw [if_pos (by simp [hns])]
    simp only [Bool.false_eq_true, if_false]
  refine ⟨h1, ?_, ?_, ?_, ?_⟩ <;> rw [h1]
  · rw [checkFinish_rejectedK]
  · rw [checkFinish_reduceLog]
  · rw [checkFinish_acc]
  · rw [checkFinish_reduceBuffer]

/-- Witness for C7: key 0 of `rejectWitnessWorld` settles rejected. -/
theorem reject_settlement_path_witness :
    (rejectWitnessWorld.settle keqN 0 false [.str "e"]).rejectedK
        = rejectWitnessWorld.rejectedK ++ [0] ∧
    (rejectWitnessWorld.settle keqN 0 false [.str "e"]).reduceLog
        = rejectWitnessWorld.reduceLog ∧
    (rejectWitnessWorld.settle keqN 0 false [.str "e"]).acc
        = rejectWitnessWorld.acc :=
  let H := reject_settlement_path keqN rejectWitnessWorld 0 [.str "e"]
    (by decide) (by decide)
  ⟨H.2.1, H.2.2.1, H.2.2.2.1⟩

/-- C10: `reduce(f, v)` applies the seed only when `v` is truthy — with
a falsy seed and an empty buffer the accumulator is unchanged (and a
fresh coordinator's accumulator is `undefined`), whereas `init(v)` sets
the accumulator unconditionally. -/
theorem falsy_seed_not_applied {K : Type} [DecidableEq K]
    (keq : K → K → Bool) (st : Iter K) (f : ReduceFn K) (v : JSVal)
    (hv : truthy v = false) (hb : st.reduceBuffer = []) :
    (st.reduceAttach keq f v).acc = st.acc ∧
    (∀ (st2 : Iter K) (v2 : JSVal), (st2.initAcc v2).acc = v2) ∧
    (∀ (tm : Option (List K)) (mr : K → Bool), (mkIter tm mr).acc = JSVal.undef) := by
  refine ⟨?_, fun st2 v2 => rfl, fun tm mr => rfl⟩
  simp [Iter.reduceAttach, hv, hb, Iter.drainLoop]

/-- Witness for C10 with the falsy seed `""`. -/
theorem falsy_seed_not_applied_witness :
    truthy (.str "") = false ∧
    ((mkIter (some [0]) (fun _ => true) : Iter Nat).reduceAttach keqN idReduce
        (.str "")).acc
      = (mkIter (some [0]) (fun _ => true) : Iter Nat).acc :=
  ⟨rfl, (falsy_seed_not_applied keqN (mkIter (some [0]) (fun _ => true))
    idReduce (.str "") rfl rfl).1⟩

end Eventually
